import Mathlib

/-!
Shallow embedding of the Edu-Genie AI service (`ai_service/main.py`).

The service is a retrieval-augmented question-answering pipeline.  We embed:

* the text splitter used by the ingest endpoint — LangChain's
  `RecursiveCharacterTextSplitter(chunk_size=1000, chunk_overlap=200)` with its
  default separators `["\n\n", "\n", " ", ""]`, `keep_separator=True`,
  `strip_whitespace=True` and `length_function=len` — as functions on `List Char`;
* the vector-store similarity search with the flat (`document_id`) and
  nested (`metadata.document_id`) equality pre-filters, with the similarity
  scores supplied by an abstract scoring function (the embedding provider is an
  external collaborator);
* conversation assembly from role-tagged history turns;
* the `/ingest` and `/chat` endpoints as pure functions over an explicit store,
  recording the external calls they perform in a trace.
-/

namespace EduGenie

/-! ### Chunker: `RecursiveCharacterTextSplitter(chunk_size=1000, chunk_overlap=200)` -/

/-- Configured chunk size of the splitter (`chunk_size=1000`, `main.py` line 77). -/
def chunk_size : Nat := 1000

/-- Configured chunk overlap of the splitter (`chunk_overlap=200`, `main.py` line 77). -/
def chunk_overlap : Nat := 200

/-- Python `str.strip()` as applied by `TextSplitter._join_docs`
(`strip_whitespace=True` is the LangChain default). -/
def stripChars (l : List Char) : List Char :=
  ((l.dropWhile Char.isWhitespace).reverse.dropWhile Char.isWhitespace).reverse

/-- LangChain `TextSplitter._join_docs`: join the accumulated splits (the merge
separator is empty because `keep_separator=True`), strip whitespace, and drop
the chunk when it strips to nothing. -/
def join_docs (current : List (List Char)) : Option (List Char) :=
  let text := stripChars current.flatten
  if text = [] then none else some text

/-- The `while` loop inside `TextSplitter._merge_splits` that pops splits off
the front of `current_doc` until the running total is within `chunk_overlap`
and appending the next split would not exceed `chunk_size`.  `len` is the
length of the split about to be appended.  The merge separator is empty, so
`separator_len` is zero throughout. -/
def popWhile (len : Nat) : List (List Char) → Nat → List (List Char) × Nat
  | [], total => ([], total)
  | c :: cs, total =>
    if total > chunk_overlap ∨ (total + len > chunk_size ∧ total > 0) then
      popWhile len cs (total - c.length)
    else (c :: cs, total)

/-- Loop body of `TextSplitter._merge_splits`: fold the splits into chunks of
total length at most `chunk_size`, carrying at most `chunk_overlap` trailing
characters of each emitted chunk into the next one.  `current` is
`current_doc` and `total` the running length, exactly as in the Python code. -/
def merge_aux : List (List Char) → List (List Char) → Nat → List (List Char)
  | [], current, _ =>
    (match join_docs current with
     | none => []
     | some doc => [doc])
  | d :: ds, current, total =>
    if total + d.length > chunk_size then
      if current.isEmpty then
        merge_aux ds (current ++ [d]) (total + d.length)
      else
        (match join_docs current with
         | none => []
         | some doc => [doc]) ++
          (merge_aux ds ((popWhile d.length current total).1 ++ [d])
            ((popWhile d.length current total).2 + d.length))
    else
      merge_aux ds (current ++ [d]) (total + d.length)

/-- LangChain `TextSplitter._merge_splits` with the empty merge separator. -/
def merge_splits (splits : List (List Char)) : List (List Char) :=
  merge_aux splits [] 0

/-- Substring occurrence test: `re.search(re.escape(sep), text)` for a literal
separator (`is_separator_regex=False`). -/
def isSub (sep : List Char) : List Char → Bool
  | [] => sep.isEmpty
  | c :: rest => sep.isPrefixOf (c :: rest) || isSub sep rest

/-- Separator-selection loop at the top of
`RecursiveCharacterTextSplitter._split_text`: take the first separator that is
empty or occurs in the text (keeping the remaining separators for recursion);
fall back to the last separator with no remaining ones. -/
def chooseSep (text : List Char) : List (List Char) → List Char × List (List Char)
  | [] => ([], [])
  | s :: rest =>
    if s.isEmpty then ([], [])
    else if isSub s text then (s, rest)
    else
      match rest with
      | [] => (s, [])
      | _ :: _ => chooseSep text rest

/-- Split `text` at every non-overlapping leftmost occurrence of `sep`,
returning the pieces between occurrences (Python `re.split` on the escaped
separator).  The fuel argument starts at `text.length`, which is enough for
every step to consume at least one character when `sep` is non-empty. -/
def splitSubAux (sep : List Char) : Nat → List Char → List Char → List (List Char)
  | _, acc, [] => [acc.reverse]
  | 0, acc, text => [acc.reverse ++ text]
  | fuel + 1, acc, c :: rest =>
    if sep.isPrefixOf (c :: rest) then
      acc.reverse :: splitSubAux sep fuel [] ((c :: rest).drop sep.length)
    else
      splitSubAux sep fuel (c :: acc) rest

/-- Split `text` by the literal separator `sep` (all pieces, in order). -/
def splitSub (sep text : List Char) : List (List Char) :=
  splitSubAux sep text.length [] text

/-- LangChain `_split_text_with_regex` with `keep_separator=True`: split on the
separator, re-attach each separator occurrence to the front of the following
piece, and drop empty pieces.  An empty separator splits into single
characters. -/
def split_text_with_regex (sep : List Char) (text : List Char) : List (List Char) :=
  if sep.isEmpty then
    (text.map (fun c => [c])).filter (fun s => !s.isEmpty)
  else
    (match splitSub sep text with
     | [] => []
     | t0 :: rest => t0 :: rest.map (fun t => sep ++ t)).filter (fun s => !s.isEmpty)

/-- Loop body of `RecursiveCharacterTextSplitter._split_text`: accumulate
splits shorter than `chunk_size` into `good`, and on each long split flush the
accumulated good splits through `merge_splits`, then either recurse on the long
split (when separators remain) or emit it as-is. -/
def split_loop (recurse : List Char → List (List Char)) (hasNew : Bool) :
    List (List Char) → List (List Char) → List (List Char)
  | good, [] => if good.isEmpty then [] else merge_splits good
  | good, s :: rest =>
    if s.length < chunk_size then
      split_loop recurse hasNew (good ++ [s]) rest
    else
      (if good.isEmpty then [] else merge_splits good) ++
        (if hasNew then recurse s else [s]) ++
        split_loop recurse hasNew [] rest

/-- `RecursiveCharacterTextSplitter._split_text`.  The fuel starts at the
number of separators; every recursive call passes a strictly shorter separator
list, so the fuel never runs out on the default separators. -/
def split_text_rec : Nat → List (List Char) → List Char → List (List Char)
  | 0, _, text => [text]
  | fuel + 1, seps, text =>
    split_loop (split_text_rec fuel (chooseSep text seps).2)
      (!(chooseSep text seps).2.isEmpty) []
      (split_text_with_regex (chooseSep text seps).1 text)

/-- Default separator list of `RecursiveCharacterTextSplitter`. -/
def separators : List (List Char) := [['\n', '\n'], ['\n'], [' '], []]

/-- `RecursiveCharacterTextSplitter.split_text` with the repository's
configuration (`main.py` line 77). -/
def split_text (text : List Char) : List (List Char) :=
  split_text_rec separators.length separators text

/-! ### Data model -/

/-- Where a stored vector's `document_id` metadata lives in the MongoDB
document: at the root (flat field `document_id`) or nested under
`metadata.document_id`.  The chat endpoint's two pre-filters target exactly
these two paths (`main.py` lines 102 and 111). -/
inductive Placement where
  | root
  | nested
deriving DecidableEq

/-- One vector stored in the Atlas vector store: chunk text, the owning
document identifier, and where that identifier is placed in the document. -/
structure IndexedVector where
  text : String
  document_id : String
  placement : Placement
deriving DecidableEq

/-- Request body of `/ingest` (`main.py` lines 62-64). -/
structure IngestRequest where
  document_id : String
  text : String
deriving DecidableEq

/-- One entry of the chat history list: Python reads `msg.get("role")` and
`msg.get("content")` from a plain dict, either of which may be absent. -/
structure ConversationTurn where
  role : Option String
  content : Option String
deriving DecidableEq

/-- Request body of `/chat` (`main.py` lines 66-69). -/
structure ChatRequest where
  document_id : String
  question : String
  history : List ConversationTurn
deriving DecidableEq

/-- LangChain message passed to the prompt: `HumanMessage` or `AIMessage`
(`main.py` lines 131 and 133). -/
inductive Message where
  | human (content : Option String)
  | ai (content : Option String)
deriving DecidableEq

/-- External calls the chat endpoint performs, in order: a vector-store
similarity search filtering on one of the two metadata paths, or a language
model invocation with the stuffed context, assembled history and question. -/
inductive ExtCall where
  | search (path : Placement) (docId : String)
  | llmInvoke (context : List String) (history : List Message) (question : String)
deriving DecidableEq

/-! ### Retriever: `vector_store.similarity_search` with pre-filters -/

/-- Mongo equality pre-filter on the flat field:
`{"document_id": {"$eq": request.document_id}}` (`main.py` line 102; also the
retriever's `search_kwargs` filter, line 124). -/
def matchesPrimary (docId : String) (v : IndexedVector) : Bool :=
  decide (v.placement = Placement.root) && decide (v.document_id = docId)

/-- Mongo equality pre-filter on the nested path:
`{"metadata.document_id": {"$eq": request.document_id}}` (`main.py` line 111). -/
def matchesFallback (docId : String) (v : IndexedVector) : Bool :=
  decide (v.placement = Placement.nested) && decide (v.document_id = docId)

/-- Stable insertion of `a` into a list sorted by strictly descending key. -/
def insertDesc {α : Type} (key : α → Nat) (a : α) : List α → List α
  | [] => [a]
  | b :: bs => if key b < key a then a :: b :: bs else b :: insertDesc key a bs

/-- Stable sort by descending key (ties keep store order). -/
def sortDesc {α : Type} (key : α → Nat) : List α → List α
  | [] => []
  | x :: xs => insertDesc key x (sortDesc key xs)

/-- `vector_store.similarity_search(query, k, pre_filter)`: restrict the store
to the vectors matching the filter, rank by descending similarity score of the
query (cosine scores abstracted as `score`), and return the first `k`. -/
def similarity_search (score : String → IndexedVector → Nat)
    (store : List IndexedVector) (query : String) (k : Nat)
    (filt : IndexedVector → Bool) : List IndexedVector :=
  (sortDesc (score query) (store.filter filt)).take k

/-- The two-step retrieval at the top of the chat endpoint (`main.py` lines
99-112): primary search on the flat field, and, exactly when it comes back
empty, the fallback search on the nested path. -/
def retrieveStep (score : String → IndexedVector → Nat)
    (store : List IndexedVector) (docId question : String) : List IndexedVector :=
  if (similarity_search score store question 5 (matchesPrimary docId)).isEmpty then
    similarity_search score store question 5 (matchesFallback docId)
  else
    similarity_search score store question 5 (matchesPrimary docId)

/-! ### Conversation Assembler (`main.py` lines 128-133) -/

/-- The history loop: a turn whose role is `"user"` becomes a `HumanMessage`,
a turn whose role is `"ai"` becomes an `AIMessage`, and every other turn is
skipped. -/
def assemble : List ConversationTurn → List Message
  | [] => []
  | t :: rest =>
    if t.role = some "user" then Message.human t.content :: assemble rest
    else if t.role = some "ai" then Message.ai t.content :: assemble rest
    else assemble rest

/-! ### Ingest endpoint (`main.py` lines 73-92) -/

/-- Response of a successful ingest (`main.py` line 88). -/
structure IngestResponse where
  status : String
  chunks_created : Nat
deriving DecidableEq

/-- External calls the ingest endpoint performs. -/
inductive IngestCall where
  | addDocuments (docs : List IndexedVector)
deriving DecidableEq

/-- The vectors produced from one ingest request: one per chunk of the split
text, each tagged with the request's `document_id` (`main.py` lines 80-83; the
debug note in the source records that the store keeps the metadata at the
root, so ingested vectors carry the flat placement). -/
def ingestVectors (req : IngestRequest) : List IndexedVector :=
  (split_text req.text.data).map
    (fun c => { text := String.mk c, document_id := req.document_id, placement := Placement.root })

/-- Result of one ingest call: the store afterwards, the HTTP response, and
the external calls performed. -/
structure IngestOutcome where
  store : List IndexedVector
  response : IngestResponse
  calls : List IngestCall
deriving DecidableEq

/-- The `/ingest` endpoint: split the text, add the chunk vectors to the
store, and report the number of chunks created. -/
def ingest_endpoint (store : List IndexedVector) (req : IngestRequest) : IngestOutcome :=
  { store := store ++ ingestVectors req
    response := { status := "success", chunks_created := (ingestVectors req).length }
    calls := [IngestCall.addDocuments (ingestVectors req)] }

/-! ### Chat endpoint (`main.py` lines 94-155) -/

/-- The fixed no-content answer (`main.py` line 115). -/
def noContentAnswer : String :=
  "I cannot find any content for this document. It might still be processing."

/-- Result of one chat call: the external calls performed, in order, and the
answer payload. -/
structure ChatResponse where
  calls : List ExtCall
  answer : String
deriving DecidableEq

/-- The pre-check searches the chat endpoint issues before deciding how to
answer: the primary (flat-field) search always, the fallback (nested-path)
search exactly when the primary one returned nothing. -/
def searchCallsOf (score : String → IndexedVector → Nat)
    (store : List IndexedVector) (req : ChatRequest) : List ExtCall :=
  if (similarity_search score store req.question 5 (matchesPrimary req.document_id)).isEmpty then
    [ExtCall.search Placement.root req.document_id,
     ExtCall.search Placement.nested req.document_id]
  else
    [ExtCall.search Placement.root req.document_id]

/-- The `/chat` endpoint.  If both pre-check searches come back empty it
returns the fixed no-content answer without touching the language model.
Otherwise it builds the retrieval chain, whose retriever always uses the
primary (flat `document_id`) filter (`main.py` lines 120-126), stuffs the
freshly retrieved chunk texts into the system prompt as the context, appends
the assembled history and the question, and invokes the model.  `llm` is the
abstract language-model provider. -/
def chat_endpoint (score : String → IndexedVector → Nat)
    (llm : List String → List Message → String → String)
    (store : List IndexedVector) (req : ChatRequest) : ChatResponse :=
  if (retrieveStep score store req.document_id req.question).isEmpty then
    { calls := searchCallsOf score store req, answer := noContentAnswer }
  else
    { calls := searchCallsOf score store req ++
        [ExtCall.search Placement.root req.document_id,
         ExtCall.llmInvoke
           ((similarity_search score store req.question 5
               (matchesPrimary req.document_id)).map (fun v => v.text))
           (assemble req.history) req.question]
      answer := llm
        ((similarity_search score store req.question 5
            (matchesPrimary req.document_id)).map (fun v => v.text))
        (assemble req.history) req.question }

/-! ### Request validation (pydantic models, `main.py` lines 62-69) -/

/-- Raw `/ingest` body before pydantic validation: either required field may be
absent. -/
structure RawIngest where
  document_id : Option String
  text : Option String
deriving DecidableEq

/-- Raw `/chat` body before pydantic validation. -/
structure RawChat where
  document_id : Option String
  question : Option String
  history : Option (List ConversationTurn)
deriving DecidableEq

/-- Validation failure: a required field is absent.  The pydantic models
declare plain `str` fields, so presence (and type) is all that is checked — an
empty string passes validation. -/
inductive ValidationError where
  | missing (field : String)
deriving DecidableEq

/-- Pydantic validation of `IngestRequest`: both fields must be present; no
constraint on their contents. -/
def validateIngest : RawIngest → Except ValidationError IngestRequest
  | ⟨some d, some t⟩ => Except.ok ⟨d, t⟩
  | ⟨none, _⟩ => Except.error (ValidationError.missing "document_id")
  | ⟨some _, none⟩ => Except.error (ValidationError.missing "text")

/-- Pydantic validation of `ChatRequest`: all three fields must be present; no
constraint on their contents. -/
def validateChat : RawChat → Except ValidationError ChatRequest
  | ⟨some d, some q, some h⟩ => Except.ok ⟨d, q, h⟩
  | ⟨none, _, _⟩ => Except.error (ValidationError.missing "document_id")
  | ⟨some _, none, _⟩ => Except.error (ValidationError.missing "question")
  | ⟨some _, some _, none⟩ => Except.error (ValidationError.missing "history")

/-- FastAPI request handling for `/ingest`: validation happens before the
endpoint body runs, so a validation error means no external call is made. -/
def handleIngestRaw (store : List IndexedVector) (r : RawIngest) :
    Except ValidationError IngestOutcome :=
  (validateIngest r).map (ingest_endpoint store)

instance {ε α : Type} [DecidableEq ε] [DecidableEq α] : DecidableEq (Except ε α) := fun a b =>
  match a, b with
  | Except.error e, Except.error f =>
    if h : e = f then isTrue (by rw [h]) else isFalse (fun hh => h (Except.error.inj hh))
  | Except.ok x, Except.ok y =>
    if h : x = y then isTrue (by rw [h]) else isFalse (fun hh => h (Except.ok.inj hh))
  | Except.error _, Except.ok _ => isFalse (fun hh => Except.noConfusion hh)
  | Except.ok _, Except.error _ => isFalse (fun hh => Except.noConfusion hh)

/-! ### Concrete inputs and claim-level predicates -/

/-- A 2500-character text (three 832-character paragraphs joined by blank
lines), used for the end-to-end ingest scenario. -/
def text2500 : List Char :=
  List.replicate 832 'a' ++ '\n' :: '\n' ::
    (List.replicate 832 'b' ++ '\n' :: '\n' :: List.replicate 832 'c')

/-- A 1202-character text of two 600-character paragraphs, used to probe the
chunk-overlap property. -/
def c5text : List Char :=
  List.replicate 600 'a' ++ '\n' :: '\n' :: List.replicate 600 'b'

/-- Every chunk except possibly the last is at most `chunk_size` characters
long. -/
def sizesOkExceptLast : List (List Char) → Bool
  | [] => true
  | [_] => true
  | c :: rest => decide (c.length ≤ chunk_size) && sizesOkExceptLast rest

/-- Every non-final chunk shares its trailing `chunk_overlap`-character window
with the start of the next chunk. -/
def overlapsOk : List (List Char) → Bool
  | c1 :: c2 :: rest =>
    (c1.drop (c1.length - chunk_overlap)).isPrefixOf c2 && overlapsOk (c2 :: rest)
  | _ => true

/-- The separator list ends with the empty separator (true of the default
separator list and of every suffix the splitter recurses on). -/
def endsWithEmpty : List (List Char) → Bool
  | [] => false
  | [s] => s.isEmpty
  | _ :: s :: rest => endsWithEmpty (s :: rest)

/-! ### Helper lemmas -/

theorem mem_insertDesc {α : Type} (key : α → Nat) (a x : α) (l : List α) :
    x ∈ insertDesc key a l ↔ x = a ∨ x ∈ l := by
  induction l with
  | nil => simp [insertDesc]
  | cons b bs ih =>
    by_cases h : key b < key a
    · simp [insertDesc, h, List.mem_cons]
    · simp [insertDesc, h, List.mem_cons, ih]
      tauto

theorem mem_sortDesc {α : Type} (key : α → Nat) (x : α) (l : List α) :
    x ∈ sortDesc key l ↔ x ∈ l := by
  induction l with
  | nil => simp [sortDesc]
  | cons a as' ih => simp [sortDesc, mem_insertDesc, ih, List.mem_cons]

theorem mem_of_similarity_search {score : String → IndexedVector → Nat}
    {store : List IndexedVector} {query : String} {k : Nat}
    {filt : IndexedVector → Bool} {v : IndexedVector}
    (h : v ∈ similarity_search score store query k filt) :
    v ∈ store ∧ filt v = true := by
  have h1 : v ∈ sortDesc (score query) (store.filter filt) :=
    (List.take_sublist k _).subset h
  exact List.mem_filter.mp ((mem_sortDesc _ _ _).mp h1)

/-! ### Claim theorems -/

/-- C1.  Document isolation: every chunk the two-step retrieval returns for a
chat request with document identifier `D` — whether found by the primary
(flat-field) filter or by the fallback (nested-path) filter — carries
`document_id = D`, and every vector produced by ingest for a request carries
that request's `document_id`. -/
theorem c1_document_isolation (score : String → IndexedVector → Nat)
    (store : List IndexedVector) (D q : String) (req : IngestRequest) :
    (∀ v ∈ retrieveStep score store D q, v.document_id = D) ∧
    (∀ v ∈ ingestVectors req, v.document_id = req.document_id) := by
  constructor
  · intro v hv
    unfold retrieveStep at hv
    split at hv
    · have h2 := (mem_of_similarity_search hv).2
      simp only [matchesFallback, Bool.and_eq_true, decide_eq_true_eq] at h2
      exact h2.2
    · have h2 := (mem_of_similarity_search hv).2
      simp only [matchesPrimary, Bool.and_eq_true, decide_eq_true_eq] at h2
      exact h2.2
  · intro v hv
    simp only [ingestVectors, List.mem_map] at hv
    obtain ⟨c, _, rfl⟩ := hv
    rfl

/-- Witness for C1 at a concrete store and request. -/
theorem c1_document_isolation_witness :
    IndexedVector.document_id ⟨"t", "D", Placement.root⟩ = "D" :=
  (c1_document_isolation (fun _ _ => 0) [⟨"t", "D", Placement.root⟩] "D" "q"
    ⟨"D", "x"⟩).1 ⟨"t", "D", Placement.root⟩ (by decide)

/-- C2 counterexample: a history turn with role `"assistant"` is dropped by
the assembler, so the output is shorter than the input — the claim that the
assembled sequence always has the same length as the input, with every
non-`"user"` role mapped to an assistant-message, fails on this input. -/
theorem c2_counterexample :
    (assemble [⟨some "assistant", some "x"⟩]).length ≠
      ([⟨some "assistant", some "x"⟩] : List ConversationTurn).length := by decide

/-- C2 (amended).  The assembler keeps exactly the turns whose role is
`"user"` or `"ai"`, in their original order, mapping `"user"` turns to
user-messages and `"ai"` turns to assistant-messages; every other turn is
dropped, so the output length is at most (not equal to) the input length. -/
theorem c2_amended_assembler (h : List ConversationTurn) :
    assemble h =
      (h.filter (fun t => decide (t.role = some "user") || decide (t.role = some "ai"))).map
        (fun t => if t.role = some "user" then Message.human t.content
                  else Message.ai t.content) ∧
    (assemble h).length ≤ h.length := by
  constructor
  · induction h with
    | nil => rfl
    | cons t rest ih =>
      by_cases hu : t.role = some "user"
      · simp [assemble, List.filter_cons, hu, ih]
      · by_cases ha : t.role = some "ai" <;>
          simp [assemble, List.filter_cons, hu, ha, ih]
  · induction h with
    | nil => simp [assemble]
    | cons t rest ih =>
      by_cases hu : t.role = some "user"
      · simp only [assemble, if_pos hu, List.length_cons]
        omega
      · by_cases ha : t.role = some "ai"
        · simp only [assemble, if_neg hu, if_pos ha, List.length_cons]
          omega
        · simp only [assemble, if_neg hu, if_neg ha, List.length_cons]
          omega

/-- C10.  A history turn whose role is neither `"user"` nor `"ai"` (including
an absent role) is silently omitted: assembling a history with such a turn
gives exactly the assembly of the history without it, with no error. -/
theorem c10_other_roles_skipped (pre post : List ConversationTurn)
    (t : ConversationTurn) (h1 : t.role ≠ some "user") (h2 : t.role ≠ some "ai") :
    assemble (pre ++ t :: post) = assemble (pre ++ post) := by
  induction pre with
  | nil => simp [assemble, h1, h2]
  | cons s rest ih =>
    by_cases hu : s.role = some "user"
    · simp [assemble, hu, ih]
    · by_cases ha : s.role = some "ai" <;> simp [assemble, hu, ha, ih]

/-- Witness for C10: a turn with role `"assistant"` between two kept turns
contributes nothing. -/
theorem c10_other_roles_skipped_witness :
    assemble [⟨some "user", some "u"⟩, ⟨some "assistant", some "x"⟩,
              ⟨some "ai", some "a"⟩] =
      assemble [⟨some "user", some "u"⟩, ⟨some "ai", some "a"⟩] :=
  c10_other_roles_skipped [⟨some "user", some "u"⟩] [⟨some "ai", some "a"⟩]
    ⟨some "assistant", some "x"⟩ (by decide) (by decide)

/-- C4.  When both the primary and the fallback searches return zero results,
the chat endpoint answers with the fixed no-content message and never invokes
the language model. -/
theorem c4_no_content_short_circuit (score : String → IndexedVector → Nat)
    (llm : List String → List Message → String → String)
    (store : List IndexedVector) (req : ChatRequest)
    (hp : similarity_search score store req.question 5 (matchesPrimary req.document_id) = [])
    (hf : similarity_search score store req.question 5 (matchesFallback req.document_id) = []) :
    (chat_endpoint score llm store req).answer = noContentAnswer ∧
    ∀ ctx msgs q, ExtCall.llmInvoke ctx msgs q ∉ (chat_endpoint score llm store req).calls := by
  have hr : retrieveStep score store req.document_id req.question = [] := by
    unfold retrieveStep
    simp [hp, hf]
  unfold chat_endpoint
  simp [hr, searchCallsOf, hp]

/-- Witness for C4 on the empty store. -/
theorem c4_no_content_short_circuit_witness :
    (chat_endpoint (fun _ _ => 0) (fun _ _ _ => "") [] ⟨"D", "q", []⟩).answer = noContentAnswer ∧
    ∀ ctx msgs q, ExtCall.llmInvoke ctx msgs q ∉
      (chat_endpoint (fun _ _ => 0) (fun _ _ _ => "") [] ⟨"D", "q", []⟩).calls :=
  c4_no_content_short_circuit (fun _ _ => 0) (fun _ _ _ => "") [] ⟨"D", "q", []⟩
    (by decide) (by decide)

/-- C6.  The fallback similarity search on the nested metadata path is
executed exactly when the primary similarity search on the flat field returns
zero results. -/
theorem c6_fallback_iff_primary_empty (score : String → IndexedVector → Nat)
    (llm : List String → List Message → String → String)
    (store : List IndexedVector) (req : ChatRequest) :
    (ExtCall.search Placement.nested req.document_id ∈
        (chat_endpoint score llm store req).calls) ↔
    similarity_search score store req.question 5 (matchesPrimary req.document_id) = [] := by
  by_cases hp : similarity_search score store req.question 5 (matchesPrimary req.document_id) = []
  · have hpe : (similarity_search score store req.question 5
        (matchesPrimary req.document_id)).isEmpty = true := by simp [hp]
    unfold chat_endpoint
    split <;> simp [searchCallsOf, hpe, hp]
  · obtain ⟨a, t, hX⟩ := List.exists_cons_of_ne_nil hp
    have hpe : (similarity_search score store req.question 5
        (matchesPrimary req.document_id)).isEmpty = false := by
      rw [hX]; rfl
    have hr : retrieveStep score store req.document_id req.question =
        similarity_search score store req.question 5 (matchesPrimary req.document_id) := by
      unfold retrieveStep
      simp [hpe]
    unfold chat_endpoint
    simp [hr, hX, searchCallsOf, hpe, hp]

/-- C3 counterexample: on a store whose only vector for document `"D"` is
indexed under the nested metadata path, the fallback search finds it (so the
model is invoked), but the prompt context is empty instead of containing the
retrieved chunk's text `"t"`. -/
theorem c3_counterexample :
    ExtCall.llmInvoke [] [] "q" ∈
      (chat_endpoint (fun _ _ => 0) (fun _ _ _ => "ans")
        [⟨"t", "D", Placement.nested⟩] ⟨"D", "q", []⟩).calls ∧
    (retrieveStep (fun _ _ => 0) [⟨"t", "D", Placement.nested⟩] "D" "q").map
        (fun v => v.text) = ["t"] ∧
    ¬ (([] : List String) = ["t"]) := by decide

/-- C3 (amended).  Whenever the language model is invoked, its context is the
result of a fresh primary-filter (flat `document_id`) similarity search — not
the step-one retrieval results; the history and question are passed through
unchanged.  When the primary search is non-empty this coincides with the
retrieved chunks' texts, but when matches exist only under the nested path the
model runs with an empty context. -/
theorem c3_amended_context (score : String → IndexedVector → Nat)
    (llm : List String → List Message → String → String)
    (store : List IndexedVector) (req : ChatRequest)
    (ctx : List String) (msgs : List Message) (q : String)
    (h : ExtCall.llmInvoke ctx msgs q ∈ (chat_endpoint score llm store req).calls) :
    ctx = (similarity_search score store req.question 5
        (matchesPrimary req.document_id)).map (fun v => v.text) ∧
    msgs = assemble req.history ∧ q = req.question ∧
    (similarity_search score store req.question 5 (matchesPrimary req.document_id) ≠ [] →
      ctx = (retrieveStep score store req.document_id req.question).map
        (fun v => v.text)) := by
  unfold chat_endpoint at h
  split at h
  · exfalso
    revert h
    unfold searchCallsOf
    split <;> simp
  · rw [List.mem_append] at h
    rcases h with h | h
    · exfalso
      revert h
      unfold searchCallsOf
      split <;> simp
    · simp only [List.mem_cons, List.not_mem_nil, or_false] at h
      rcases h with h | h
      · exact absurd h (by simp)
      · have hc := (ExtCall.llmInvoke.injEq _ _ _ _ _ _).mp h
        refine ⟨hc.1, hc.2.1, hc.2.2, ?_⟩
        intro hne
        obtain ⟨a, t, hX⟩ := List.exists_cons_of_ne_nil hne
        have hr : retrieveStep score store req.document_id req.question =
            similarity_search score store req.question 5 (matchesPrimary req.document_id) := by
          unfold retrieveStep
          rw [hX]
          rfl
        rw [hr]
        exact hc.1

/-- Witness for C3 (amended) at a concrete store with a root-indexed vector. -/
theorem c3_amended_context_witness :
    (["t1"] : List String) = (similarity_search (fun _ _ => 0)
        [⟨"t1", "D", Placement.root⟩] "q" 5 (matchesPrimary "D")).map (fun v => v.text) ∧
    ([] : List Message) = assemble [] ∧ "q" = "q" ∧
    (similarity_search (fun _ _ => 0) [⟨"t1", "D", Placement.root⟩] "q" 5
        (matchesPrimary "D") ≠ [] →
      (["t1"] : List String) = (retrieveStep (fun _ _ => 0)
        [⟨"t1", "D", Placement.root⟩] "D" "q").map (fun v => v.text)) :=
  c3_amended_context (fun _ _ => 0) (fun _ _ _ => "ans")
    [⟨"t1", "D", Placement.root⟩] ⟨"D", "q", []⟩ ["t1"] [] "q" (by decide)

/-- C7 counterexample: an ingest body with an empty `document_id` (and
non-empty text) passes validation and the endpoint proceeds to chunk the text
and call the vector store — empty required fields are not rejected.  The chat
validator likewise accepts an empty question. -/
theorem c7_counterexample :
    handleIngestRaw [] ⟨some "", some "hello"⟩ =
      Except.ok
        { store := [⟨"hello", "", Placement.root⟩],
          response := { status := "success", chunks_created := 1 },
          calls := [IngestCall.addDocuments [⟨"hello", "", Placement.root⟩]] } ∧
    validateChat ⟨some "D", some "", some []⟩ = Except.ok ⟨"D", "", []⟩ := by decide

/-- C7 (amended).  A request with a missing required field is rejected with a
validation error before the endpoint body (and hence any external call) runs;
requests whose fields are present — even empty strings — pass validation and
are processed normally. -/
theorem c7_amended_validation (store : List IndexedVector) (r : RawIngest) (rc : RawChat) :
    (r.document_id = none →
      handleIngestRaw store r = Except.error (ValidationError.missing "document_id")) ∧
    (∀ d, r.document_id = some d → r.text = none →
      handleIngestRaw store r = Except.error (ValidationError.missing "text")) ∧
    (∀ d t, validateIngest ⟨some d, some t⟩ = Except.ok ⟨d, t⟩) ∧
    (rc.document_id = none →
      validateChat rc = Except.error (ValidationError.missing "document_id")) ∧
    (∀ d, rc.document_id = some d → rc.question = none →
      validateChat rc = Except.error (ValidationError.missing "question")) ∧
    (∀ d q hist, validateChat ⟨some d, some q, some hist⟩ = Except.ok ⟨d, q, hist⟩) := by
  obtain ⟨rd, rt⟩ := r
  obtain ⟨cd, cq, ch⟩ := rc
  refine ⟨?_, ?_, ?_, ?_, ?_, ?_⟩
  · rintro rfl
    cases rt <;> rfl
  · rintro d rfl rfl
    rfl
  · intro d t
    rfl
  · rintro rfl
    cases cq <;> cases ch <;> rfl
  · rintro d rfl rfl
    cases ch <;> rfl
  · intro d q hist
    rfl

/-- Witness for C7 (amended): a body missing `document_id` is rejected, and a
body of empty strings is accepted. -/
theorem c7_amended_validation_witness :
    handleIngestRaw [] ⟨none, some "x"⟩ =
      Except.error (ValidationError.missing "document_id") ∧
    validateIngest ⟨some "", some ""⟩ = Except.ok ⟨"", ""⟩ :=
  ⟨(c7_amended_validation [] ⟨none, some "x"⟩ ⟨none, none, none⟩).1 rfl,
   (c7_amended_validation [] ⟨none, some "x"⟩ ⟨none, none, none⟩).2.2.1 "" ""⟩

/-- C9.  Ingest only appends: re-ingesting under an already-used
`document_id` keeps every previously stored vector, and the vectors of both
ingests are candidates of the primary retrieval filter for that document. -/
theorem c9_ingest_append_only (store : List IndexedVector) (r1 r2 : IngestRequest)
    (hdoc : r1.document_id = r2.document_id) :
    (ingest_endpoint store r1).store = store ++ ingestVectors r1 ∧
    (∀ v ∈ (ingest_endpoint store r1).store,
      v ∈ (ingest_endpoint (ingest_endpoint store r1).store r2).store) ∧
    (∀ v ∈ ingestVectors r1,
      v ∈ ((ingest_endpoint (ingest_endpoint store r1).store r2).store).filter
          (matchesPrimary r2.document_id)) ∧
    (∀ v ∈ ingestVectors r2,
      v ∈ ((ingest_endpoint (ingest_endpoint store r1).store r2).store).filter
          (matchesPrimary r2.document_id)) := by
  refine ⟨rfl, ?_, ?_, ?_⟩
  · intro v hv
    have hv' : v ∈ store ++ ingestVectors r1 := hv
    simp only [ingest_endpoint, List.mem_append]
    exact Or.inl (List.mem_append.mp hv')
  · intro v hv
    have hprop : v.document_id = r1.document_id ∧ v.placement = Placement.root := by
      simp only [ingestVectors, List.mem_map] at hv
      obtain ⟨c, _, rfl⟩ := hv
      exact ⟨rfl, rfl⟩
    have hmem : v ∈ (ingest_endpoint (ingest_endpoint store r1).store r2).store := by
      simp only [ingest_endpoint, List.mem_append]
      exact Or.inl (Or.inr hv)
    rw [List.mem_filter]
    refine ⟨hmem, ?_⟩
    simp [matchesPrimary, hprop.1, hprop.2, hdoc]
  · intro v hv
    have hprop : v.document_id = r2.document_id ∧ v.placement = Placement.root := by
      simp only [ingestVectors, List.mem_map] at hv
      obtain ⟨c, _, rfl⟩ := hv
      exact ⟨rfl, rfl⟩
    have hmem : v ∈ (ingest_endpoint (ingest_endpoint store r1).store r2).store := by
      simp only [ingest_endpoint, List.mem_append]
      exact Or.inr hv
    rw [List.mem_filter]
    refine ⟨hmem, ?_⟩
    simp [matchesPrimary, hprop.1, hprop.2]

/-- Witness for C9: two concrete ingests under document `"D"`. -/
theorem c9_ingest_append_only_witness :
    (ingest_endpoint [] ⟨"D", "hi"⟩).store = [] ++ ingestVectors ⟨"D", "hi"⟩ ∧
    (⟨"hi", "D", Placement.root⟩ : IndexedVector) ∈
      ((ingest_endpoint (ingest_endpoint [] ⟨"D", "hi"⟩).store ⟨"D", "yo"⟩).store).filter
        (matchesPrimary "D") :=
  ⟨(c9_ingest_append_only [] ⟨"D", "hi"⟩ ⟨"D", "yo"⟩ rfl).1,
   (c9_ingest_append_only [] ⟨"D", "hi"⟩ ⟨"D", "yo"⟩ rfl).2.2.1
     ⟨"hi", "D", Placement.root⟩ (by decide)⟩

/-! ### Chunk-size bound for the splitter -/

theorem length_dropWhileChar_le (p : Char → Bool) (l : List Char) :
    (l.dropWhile p).length ≤ l.length := by
  induction l with
  | nil => simp
  | cons c cs ih =>
    rw [List.dropWhile_cons]
    split
    · exact Nat.le_trans ih (by simp)
    · simp

theorem length_stripChars_le (l : List Char) : (stripChars l).length ≤ l.length := by
  unfold stripChars
  rw [List.length_reverse]
  refine Nat.le_trans (length_dropWhileChar_le _ _) ?_
  rw [List.length_reverse]
  exact length_dropWhileChar_le _ _

theorem join_docs_le (current : List (List Char)) (doc : List Char)
    (h : join_docs current = some doc) :
    doc.length ≤ (current.map List.length).sum := by
  simp only [join_docs] at h
  split at h
  · exact absurd h (by simp)
  · have hd : doc = stripChars current.flatten := (Option.some.inj h).symm
    rw [hd]
    refine Nat.le_trans (length_stripChars_le _) ?_
    rw [List.length_flatten]

theorem popWhile_spec (len : Nat) (current : List (List Char)) (total : Nat)
    (h : total = (current.map List.length).sum) :
    (popWhile len current total).2 = (((popWhile len current total).1).map List.length).sum ∧
    (popWhile len current total).2 ≤ chunk_overlap ∧
    ((popWhile len current total).2 + len ≤ chunk_size ∨ (popWhile len current total).2 = 0) := by
  induction current generalizing total with
  | nil =>
    have h0 : total = 0 := by simpa using h
    subst h0
    exact ⟨by simp [popWhile], by simp [popWhile], Or.inr (by simp [popWhile])⟩
  | cons c cs ih =>
    by_cases hc : total > chunk_overlap ∨ (total + len > chunk_size ∧ total > 0)
    · rw [show popWhile len (c :: cs) total = popWhile len cs (total - c.length) from by
        simp [popWhile, hc]]
      apply ih
      simp only [List.map_cons, List.sum_cons] at h
      omega
    · simp only [popWhile, if_neg hc]
      refine ⟨h, ?_, ?_⟩
      · by_cases h1 : total ≤ chunk_overlap
        · exact h1
        · exact absurd (Or.inl (Nat.lt_of_not_le h1)) hc
      · by_cases h2 : total + len ≤ chunk_size
        · exact Or.inl h2
        · by_cases h3 : total = 0
          · exact Or.inr h3
          · exact absurd (Or.inr ⟨Nat.lt_of_not_le h2, Nat.pos_of_ne_zero h3⟩) hc

theorem merge_aux_le (ds : List (List Char)) :
    ∀ current total, (∀ d ∈ ds, d.length < chunk_size) →
    total = (current.map List.length).sum → total ≤ chunk_size →
    ∀ doc ∈ merge_aux ds current total, doc.length ≤ chunk_size := by
  induction ds with
  | nil =>
    intro current total _ hinv hle doc hdoc
    simp only [merge_aux] at hdoc
    rcases hj : join_docs current with _ | d
    · rw [hj] at hdoc
      simp at hdoc
    · rw [hj] at hdoc
      simp only [List.mem_singleton] at hdoc
      subst hdoc
      calc doc.length ≤ (current.map List.length).sum := join_docs_le current doc hj
        _ = total := hinv.symm
        _ ≤ chunk_size := hle
  | cons d ds ih =>
    intro current total hds hinv hle doc hdoc
    have hdlt : d.length < chunk_size := hds d (List.mem_cons_self _ _)
    have hds' : ∀ x ∈ ds, x.length < chunk_size := fun x hx => hds x (List.mem_cons_of_mem _ hx)
    simp only [merge_aux] at hdoc
    by_cases hcond : total + d.length > chunk_size
    · rw [if_pos hcond] at hdoc
      by_cases hcur : current.isEmpty
      · rw [if_pos hcur] at hdoc
        have hnil : current = [] := List.isEmpty_iff.mp hcur
        subst hnil
        simp only [List.map_nil, List.sum_nil] at hinv
        omega
      · rw [if_neg hcur] at hdoc
        rw [List.mem_append] at hdoc
        rcases hdoc with hdoc | hdoc
        · rcases hj : join_docs current with _ | doc0
          · rw [hj] at hdoc
            simp at hdoc
          · rw [hj] at hdoc
            simp only [List.mem_singleton] at hdoc
            subst hdoc
            calc doc.length ≤ (current.map List.length).sum := join_docs_le current doc hj
              _ = total := hinv.symm
              _ ≤ chunk_size := by omega
        · have hps := popWhile_spec d.length current total hinv
          refine ih ((popWhile d.length current total).1 ++ [d])
            ((popWhile d.length current total).2 + d.length) hds' ?_ ?_ doc hdoc
          · rw [List.map_append, List.sum_append]
            simp [hps.1]
          · rcases hps.2.2 with h | h
            · exact h
            · rw [h]
              omega
    · rw [if_neg hcond] at hdoc
      refine ih (current ++ [d]) (total + d.length) hds' ?_ ?_ doc hdoc
      · rw [List.map_append, List.sum_append]
        simp [hinv]
      · omega

theorem merge_splits_le (splits : List (List Char))
    (h : ∀ d ∈ splits, d.length < chunk_size) :
    ∀ doc ∈ merge_splits splits, doc.length ≤ chunk_size := by
  unfold merge_splits
  exact merge_aux_le splits [] 0 h rfl (Nat.zero_le _)

theorem split_loop_le (recurse : List Char → List (List Char)) (hasNew : Bool)
    (splits : List (List Char)) :
    ∀ good, (∀ g ∈ good, g.length < chunk_size) →
    (∀ s ∈ splits, chunk_size ≤ s.length →
      hasNew = true ∧ ∀ c ∈ recurse s, c.length ≤ chunk_size) →
    ∀ c ∈ split_loop recurse hasNew good splits, c.length ≤ chunk_size := by
  induction splits with
  | nil =>
    intro good hgood _ c hc
    simp only [split_loop] at hc
    split at hc
    · simp at hc
    · exact merge_splits_le good hgood c hc
  | cons s rest ih =>
    intro good hgood hbig c hc
    simp only [split_loop] at hc
    by_cases hs : s.length < chunk_size
    · rw [if_pos hs] at hc
      refine ih (good ++ [s]) ?_ ?_ c hc
      · intro g hg
        rcases List.mem_append.mp hg with h | h
        · exact hgood g h
        · rw [List.mem_singleton] at h
          subst h
          exact hs
      · intro x hx hxl
        exact hbig x (List.mem_cons_of_mem _ hx) hxl
    · rw [if_neg hs] at hc
      rw [List.mem_append] at hc
      rcases hc with hc | hc
      · rw [List.mem_append] at hc
        rcases hc with hc | hc
        · split at hc
          · simp at hc
          · exact merge_splits_le good hgood c hc
        · obtain ⟨hNew, hrec⟩ := hbig s (List.mem_cons_self _ _) (Nat.le_of_not_lt hs)
          rw [hNew, if_pos rfl] at hc
          exact hrec c hc
      · refine ih [] (by simp) ?_ c hc
        intro x hx hxl
        exact hbig x (List.mem_cons_of_mem _ hx) hxl

theorem chooseSep_spec (text : List Char) :
    ∀ seps : List (List Char), endsWithEmpty seps = true →
    ((chooseSep text seps).2 = [] → (chooseSep text seps).1 = []) ∧
    ((chooseSep text seps).2 ≠ [] →
      endsWithEmpty (chooseSep text seps).2 = true ∧
      (chooseSep text seps).2.length < seps.length) := by
  intro seps
  induction seps with
  | nil =>
    intro h
    simp [endsWithEmpty] at h
  | cons s rest ih =>
    intro hlast
    cases rest with
    | nil =>
      have hse : s.isEmpty = true := hlast
      simp [chooseSep, hse]
    | cons r rs =>
      have hlast' : endsWithEmpty (r :: rs) = true := hlast
      by_cases hse : s.isEmpty = true
      · have hstep : chooseSep text (s :: r :: rs) = ([], []) := by
          rw [chooseSep, if_pos hse]
        rw [hstep]
        simp
      · by_cases hsub : isSub s text = true
        · have hstep : chooseSep text (s :: r :: rs) = (s, r :: rs) := by
            rw [chooseSep, if_neg hse, if_pos hsub]
          rw [hstep]
          refine ⟨fun h => absurd h (by simp), fun _ => ⟨hlast', by simp⟩⟩
        · have hstep : chooseSep text (s :: r :: rs) = chooseSep text (r :: rs) := by
            rw [chooseSep, if_neg hse, if_neg hsub]
          rw [hstep]
          obtain ⟨h1, h2⟩ := ih hlast'
          refine ⟨h1, fun hne => ⟨(h2 hne).1, ?_⟩⟩
          have h3 := (h2 hne).2
          simp only [List.length_cons] at h3 ⊢
          omega

theorem mem_split_text_with_regex_nil {s : List Char} (text : List Char)
    (h : s ∈ split_text_with_regex [] text) : s.length = 1 := by
  simp only [split_text_with_regex, List.isEmpty_nil, if_true] at h
  have h1 := (List.mem_filter.mp h).1
  obtain ⟨c, _, rfl⟩ := List.mem_map.mp h1
  rfl

theorem split_text_rec_le (fuel : Nat) :
    ∀ seps text, endsWithEmpty seps = true → seps.length ≤ fuel →
    ∀ c ∈ split_text_rec fuel seps text, c.length ≤ chunk_size := by
  induction fuel with
  | zero =>
    intro seps text hlast hlen
    have hnil : seps = [] := List.length_eq_zero.mp (Nat.le_zero.mp hlen)
    subst hnil
    simp [endsWithEmpty] at hlast
  | succ fuel ih =>
    intro seps text hlast hlen c hc
    simp only [split_text_rec] at hc
    refine split_loop_le _ _ _ [] (by simp) ?_ c hc
    intro s hs hslen
    by_cases hns : (chooseSep text seps).2 = []
    · have hsep : (chooseSep text seps).1 = [] := ((chooseSep_spec text seps hlast).1) hns
      rw [hsep] at hs
      have hone := mem_split_text_with_regex_nil text hs
      have h2 : (2 : Nat) ≤ chunk_size := by norm_num [chunk_size]
      omega
    · have hspec := ((chooseSep_spec text seps hlast).2) hns
      constructor
      · obtain ⟨a, t, hX⟩ := List.exists_cons_of_ne_nil hns
        rw [hX]
        rfl
      · intro x hx
        refine ih (chooseSep text seps).2 s hspec.1 ?_ x hx
        have := hspec.2
        omega

/-- C5 (amended).  For every input text, the Chunker produces chunks each at
most 1000 characters long (including the last); the further claim that every
non-final chunk shares its exact trailing 200-character window with the start
of the next chunk does not hold in general — the overlap is applied at split
boundaries and can be shorter or absent. -/
theorem c5_chunk_length_bound (text : List Char) :
    ∀ c ∈ split_text text, c.length ≤ chunk_size :=
  split_text_rec_le separators.length separators text (by decide) (Nat.le_refl _)

/-- Witness for C5 (amended) on a tiny concrete text. -/
theorem c5_chunk_length_bound_witness : (['h', 'i'] : List Char).length ≤ chunk_size :=
  c5_chunk_length_bound ['h', 'i'] ['h', 'i'] (by decide)

set_option maxRecDepth 400000 in
/-- C5 counterexample: on the 1202-character text of two 600-character
paragraphs the splitter produces two chunks of 600 characters with no shared
window at all, so the conjunction "chunks bounded by 1000 except possibly the
last AND every non-final chunk shares its trailing 200-character window with
the next chunk" is false at this input (the overlap conjunct fails). -/
theorem c5_counterexample :
    ¬ (sizesOkExceptLast (split_text c5text) = true ∧
       overlapsOk (split_text c5text) = true) := by decide

/-! ### Symbolic evaluation of the splitter on the 2500-character scenario -/

theorem nil_isPrefixOf (t : List Char) : ([] : List Char).isPrefixOf t = true := by
  cases t <;> rfl

theorem isPrefixOf_self_append (l t : List Char) : l.isPrefixOf (l ++ t) = true := by
  induction l with
  | nil => exact nil_isPrefixOf _
  | cons c cs ih => simp [List.isPrefixOf_cons₂, ih]

theorem isSub_head (c : Char) (s t : List Char) (h : (c :: s).isPrefixOf t = true) :
    isSub (c :: s) t = true := by
  cases t with
  | nil => simp [List.isPrefixOf] at h
  | cons x rest => simp [isSub, h]

theorem isSub_append_left (sep u t : List Char) (h : isSub sep t = true) :
    isSub sep (u ++ t) = true := by
  induction u with
  | nil => simpa using h
  | cons x xs ih => simp [isSub, ih]

theorem splitSubAux_skip (c : Char) (s : List Char) :
    ∀ w : List Char, (∀ x ∈ w, x ≠ c) → ∀ (fuel : Nat) (acc text : List Char),
    splitSubAux (c :: s) (fuel + w.length) acc (w ++ text) =
      splitSubAux (c :: s) fuel (w.reverse ++ acc) text := by
  intro w
  induction w with
  | nil =>
    intro _ fuel acc text
    simp
  | cons x xs ih =>
    intro hw fuel acc text
    have hxc : x ≠ c := hw x (List.mem_cons_self _ _)
    have hxs : ∀ y ∈ xs, y ≠ c := fun y hy => hw y (List.mem_cons_of_mem _ hy)
    have hpre : (c :: s).isPrefixOf (x :: (xs ++ text)) = false := by
      rw [List.isPrefixOf_cons₂]
      simp [Ne.symm hxc]
    show splitSubAux (c :: s) (fuel + xs.length + 1) acc (x :: (xs ++ text)) =
      splitSubAux (c :: s) fuel ((x :: xs).reverse ++ acc) text
    rw [splitSubAux, if_neg (by simp [hpre])]
    rw [ih hxs fuel (x :: acc) text]
    simp [List.reverse_cons, List.append_assoc]

theorem splitSubAux_terminal (sep : List Char) (fuel : Nat) (acc : List Char) :
    splitSubAux sep fuel acc [] = [acc.reverse] := by
  cases fuel <;> rfl

theorem splitSubAux_last (c : Char) (s w : List Char) (hw : ∀ x ∈ w, x ≠ c)
    (fuel : Nat) (acc : List Char) :
    splitSubAux (c :: s) (fuel + w.length) acc w = [(w.reverse ++ acc).reverse] := by
  have h := splitSubAux_skip c s w hw fuel acc []
  rw [List.append_nil] at h
  rw [h, splitSubAux_terminal]

theorem splitSubAux_found2 (c d : Char) (rest : List Char) (fuel : Nat) (acc : List Char) :
    splitSubAux [c, d] (fuel + 1) acc (c :: d :: rest) =
      acc.reverse :: splitSubAux [c, d] fuel [] rest := by
  have hpre : ([c, d] : List Char).isPrefixOf (c :: d :: rest) = true := by
    simp [List.isPrefixOf_cons₂, nil_isPrefixOf]
  rw [splitSubAux, if_pos hpre]
  rfl

theorem splitSub_text2500 :
    splitSub ['\n', '\n'] text2500 =
      [List.replicate 832 'a', List.replicate 832 'b', List.replicate 832 'c'] := by
  have ha : ∀ x ∈ List.replicate 832 'a', x ≠ '\n' := by
    intro x hx
    rw [List.eq_of_mem_replicate hx]
    decide
  have hb : ∀ x ∈ List.replicate 832 'b', x ≠ '\n' := by
    intro x hx
    rw [List.eq_of_mem_replicate hx]
    decide
  have hc : ∀ x ∈ List.replicate 832 'c', x ≠ '\n' := by
    intro x hx
    rw [List.eq_of_mem_replicate hx]
    decide
  have hlen : text2500.length = 2500 := by
    rw [text2500]
    simp only [List.length_append, List.length_cons, List.length_replicate]
  unfold splitSub
  rw [hlen]
  rw [show text2500 = List.replicate 832 'a' ++
      ('\n' :: '\n' :: (List.replicate 832 'b' ++ '\n' :: '\n' :: List.replicate 832 'c'))
    from rfl]
  rw [show (2500 : Nat) = 1668 + (List.replicate 832 'a').length from by
    rw [List.length_replicate]]
  rw [splitSubAux_skip '\n' ['\n'] (List.replicate 832 'a') ha 1668]
  rw [show (1668 : Nat) = 1667 + 1 from rfl]
  rw [splitSubAux_found2]
  rw [show (1667 : Nat) = 835 + (List.replicate 832 'b').length from by
    rw [List.length_replicate]]
  rw [splitSubAux_skip '\n' ['\n'] (List.replicate 832 'b') hb 835]
  rw [show (835 : Nat) = 834 + 1 from rfl]
  rw [splitSubAux_found2]
  rw [show (834 : Nat) = 2 + (List.replicate 832 'c').length from by
    rw [List.length_replicate]]
  rw [splitSubAux_last '\n' ['\n'] (List.replicate 832 'c') hc 2]
  simp only [List.append_nil, List.reverse_reverse, List.reverse_replicate]

theorem split_text_with_regex_text2500 :
    split_text_with_regex ['\n', '\n'] text2500 =
      [List.replicate 832 'a',
       '\n' :: '\n' :: List.replicate 832 'b',
       '\n' :: '\n' :: List.replicate 832 'c'] := by
  rw [split_text_with_regex, if_neg (by decide), splitSub_text2500]
  rfl

set_option maxRecDepth 40000 in
theorem split_text_text2500 :
    split_text text2500 =
      [List.replicate 832 'a', List.replicate 832 'b', List.replicate 832 'c'] := by
  have hsub : isSub ['\n', '\n'] text2500 = true := by
    rw [show text2500 = List.replicate 832 'a' ++
        ('\n' :: '\n' :: (List.replicate 832 'b' ++ '\n' :: '\n' :: List.replicate 832 'c'))
      from rfl]
    exact isSub_append_left _ _ _
      (isSub_head '\n' ['\n'] _
        (isPrefixOf_self_append ['\n', '\n']
          (List.replicate 832 'b' ++ '\n' :: '\n' :: List.replicate 832 'c')))
  have hchoose : chooseSep text2500 separators = (['\n', '\n'], [['\n'], [' '], []]) := by
    rw [separators, chooseSep, if_neg (by decide), if_pos hsub]
  have h1 : split_text text2500 =
      split_loop (split_text_rec 3 (chooseSep text2500 separators).2)
        (!(chooseSep text2500 separators).2.isEmpty) []
        (split_text_with_regex (chooseSep text2500 separators).1 text2500) := rfl
  rw [h1, hchoose]
  show split_loop (split_text_rec 3 [['\n'], [' '], []]) true []
      (split_text_with_regex ['\n', '\n'] text2500) =
    [List.replicate 832 'a', List.replicate 832 'b', List.replicate 832 'c']
  rw [split_text_with_regex_text2500]
  decide

theorem ingest_response_spec (store : List IndexedVector) (req : IngestRequest) :
    (ingest_endpoint store req).response =
      { status := "success", chunks_created := (split_text req.text.data).length } := by
  simp [ingest_endpoint, ingestVectors]

/-- C8.  Every (successful) ingest responds with status `"success"` and
`chunks_created` equal to the number of chunks the splitter produced from the
request text; in particular, ingesting the 2500-character scenario text yields
`chunks_created = 3`. -/
theorem c8_chunks_created (store : List IndexedVector) (req : IngestRequest) :
    (ingest_endpoint store req).response =
      { status := "success", chunks_created := (split_text req.text.data).length } ∧
    (String.mk text2500).length = 2500 ∧
    (ingest_endpoint [] ⟨"doc1", String.mk text2500⟩).response.chunks_created = 3 := by
  refine ⟨ingest_response_spec store req, ?_, ?_⟩
  · have h : text2500.length = 2500 := by
      rw [text2500]
      simp only [List.length_append, List.length_cons, List.length_replicate]
    exact h
  · rw [ingest_response_spec]
    rw [show (String.mk text2500).data = text2500 from rfl]
    rw [split_text_text2500]
    rfl

end EduGenie
